import Mathlib

/-!
# Shallow embedding of the ascii-rendering-engine core

Rust sources embedded here:
- `src/video_extraction/frame.rs` — `Frame`, `FrameBuffer`
- `src/video_extraction/reader.rs` — `VideoReader::seek`
- `src/ascii_converter.rs` — `CharacterSet`, `AsciiConverter::convert`
- `src/video_extraction.rs` — `VideoExtractor::pixel_to_ascii` and the
  `play_as_ascii` playback loop (key handling and the tick step)

Machine floats (`f32`/`f64`) are modelled as exact rationals `ℚ`; the decimal
literals of the source become exact decimal fractions.  Rust's float-to-integer
`as usize`/`as u64` casts truncate toward zero and saturate below at 0, which on
our rationals is `Int.toNat ∘ Int.floor` for the non-negative values that occur
(for negatives both truncate to 0 after saturation).  Machine integers are `Nat`
(no arithmetic here approaches the 32/64-bit wrap boundary in a way a claim
depends on).
-/

namespace AsciiEngine

/-- A raw RGB frame, from `Frame` in `src/video_extraction/frame.rs`:
width, height, packed RGB8 byte buffer, timestamp, sequence index. -/
structure Frame where
  width : Nat
  height : Nat
  data : List Nat
  timestamp : Rat
  index : Nat
deriving DecidableEq

/-- `Frame::to_image` pads the pixel buffer with zeros (or truncates it) to
exactly `width*height*3` bytes before building the image
(`frame.rs`, `to_image`). This is the padded/truncated byte buffer. -/
def Frame.imageData (f : Frame) : List Nat :=
  let expected := f.width * f.height * 3
  if f.data.length < expected then
    f.data ++ List.replicate (expected - f.data.length) 0
  else
    f.data.take expected

/-- Modelled from the spec: per-pixel luminance of the external `image` crate's
grayscale conversion (`image::imageops::grayscale`, invoked by
`Frame::to_grayscale`), "standard perceptual grayscale weighting
(≈0.2126R+0.7152G+0.0722B)".  The crate computes it with integer coefficients
2126/7152/722 over 10000; black maps to 0 and white to 255 exactly. -/
def luma (r g b : Nat) : Nat :=
  (2126 * r + 7152 * g + 722 * b) / 10000

/-- `Frame::to_grayscale` (`frame.rs`): one luminance byte per pixel, in
row-major order over the padded image buffer. -/
def Frame.to_grayscale (f : Frame) : List Nat :=
  let d := f.imageData
  (List.range (f.width * f.height)).map fun i =>
    luma (d.getD (3 * i) 0) (d.getD (3 * i + 1) 0) (d.getD (3 * i + 2) 0)

/-- Modelled from the spec: `Frame::resize` (`frame.rs`) delegates the pixel
resampling to the external `image` crate (`image::imageops::resize`,
Lanczos3).  We model it as nearest-neighbour sampling; what the repository
code relies on is the guaranteed output shape: the result has exactly the
requested dimensions and a `new_width*new_height*3` byte buffer. -/
def Frame.resize (f : Frame) (newWidth newHeight : Nat) : Frame :=
  let d := f.imageData
  { width := newWidth
    height := newHeight
    data := (List.range (newWidth * newHeight * 3)).map fun j =>
      let i := j / 3
      let x := i % newWidth
      let y := i / newWidth
      let sx := x * f.width / newWidth
      let sy := y * f.height / newHeight
      d.getD ((sy * f.width + sx) * 3 + j % 3) 0
    timestamp := f.timestamp
    index := f.index }

/-- The three character-ramp presets of `src/ascii_converter.rs`. -/
inductive CharacterSet where
  | simple
  | standard
  | extended
deriving DecidableEq

/-- `CharacterSet::get_chars` (`src/ascii_converter.rs`), the exact ramp
strings of the source. -/
def CharacterSet.get_chars : CharacterSet → String
  | .simple => " .:-=+*#%@"
  | .standard => " .`^\",:;Il!i><~+_-?][\x7d\x7b1)(|/tfjrxnuvczXYUJCLQ0OZmwqpdbkhao*#MW&8%B@$"
  | .extended => " .'`^\",:;Il!i><~+_-?][\x7d\x7b1)(|\\/tfjrxnuvczXYUJCLQ0OZmwqpdbkhao*#MW&8%B@$█▓▒░▄▀▐▌"

/-- `AsciiChar` (`src/ascii_converter.rs`): glyph plus optional RGB colour. -/
structure AsciiChar where
  character : Char
  color : Option (Nat × Nat × Nat)
deriving DecidableEq

/-- `AsciiFrame` (`src/ascii_converter.rs`). -/
structure AsciiFrame where
  width : Nat
  height : Nat
  data : List AsciiChar
  timestamp : Rat
deriving DecidableEq

/-- `AsciiConverter` (`src/ascii_converter.rs`). `new` sets
`brightness := 0`, `contrast := 1`. -/
structure AsciiConverter where
  width : Nat
  height : Nat
  char_set : CharacterSet
  use_color : Bool
  brightness : Rat
  contrast : Rat
deriving DecidableEq

/-- Rust's `f32::clamp(lo, hi)` on rationals (for `lo ≤ hi`). -/
def rclamp (x lo hi : Rat) : Rat := max lo (min x hi)

/-- `chars.chars().nth(i).unwrap_or(' ')`. -/
def nthCharOr (s : String) (i : Nat) : Char := s.data.getD i ' '

/-- The brightness adjustment of `AsciiConverter::convert`
(`ascii_converter.rs` line 98):
`((brightness/255 - 0.5) * contrast + 0.5 + self.brightness).clamp(0,1)`. -/
def AsciiConverter.adjustedOf (c : AsciiConverter) (pxBrightness : Nat) : Rat :=
  rclamp (((pxBrightness : Rat) / 255 - 1/2) * c.contrast + 1/2 + c.brightness) 0 1

/-- The glyph-index computation of `AsciiConverter::convert`
(`ascii_converter.rs` line 102):
`((char_count - 1) as f32 * adjusted) as usize`. -/
def AsciiConverter.charIdxOf (c : AsciiConverter) (pxBrightness : Nat) : Nat :=
  (⌊((c.char_set.get_chars.length - 1 : Nat) : Rat) * c.adjustedOf pxBrightness⌋).toNat

/-- The resize-on-mismatch step opening `AsciiConverter::convert`
(`ascii_converter.rs` lines 73–77). -/
def AsciiConverter.resizedOf (c : AsciiConverter) (frame : Frame) : Frame :=
  if frame.width ≠ c.width ∨ frame.height ≠ c.height then
    frame.resize c.width (c.height * 2)
  else
    frame

/-- One iteration of the per-cell loop body of `AsciiConverter::convert`
(`ascii_converter.rs` lines 86–125): `none` is the `continue` taken when the
cell index falls outside the grayscale buffer. -/
def AsciiConverter.cellFor (c : AsciiConverter) (resized : Frame) (grayscale : List Nat)
    (y x : Nat) : Option AsciiChar :=
  let idx := y * resized.width + x
  if idx < grayscale.length then
    let pxBrightness := grayscale.getD idx 0
    let ch := nthCharOr c.char_set.get_chars (c.charIdxOf pxBrightness)
    let color :=
      if c.use_color then
        let rgbIdx := (y * resized.width + x) * 3
        if rgbIdx + 2 < resized.data.length then
          some (resized.data.getD rgbIdx 0,
                resized.data.getD (rgbIdx + 1) 0,
                resized.data.getD (rgbIdx + 2) 0)
        else
          none
      else
        none
    some { character := ch, color := color }
  else
    none

/-- `AsciiConverter::convert` (`src/ascii_converter.rs` lines 71–134):
resize when dimensions differ (to `width × height*2`), grayscale, then the
double loop pushing one `AsciiChar` per cell. -/
def AsciiConverter.convert (c : AsciiConverter) (frame : Frame) : AsciiFrame :=
  let resized := c.resizedOf frame
  let grayscale := resized.to_grayscale
  let cells := (List.range c.height).flatMap fun y =>
    (List.range c.width).filterMap (c.cellFor resized grayscale y)
  { width := c.width, height := c.height, data := cells, timestamp := frame.timestamp }

/-- The fixed playback ramp `ASCII_CHARS` of `src/video_extraction.rs`
(15 ASCII glyphs; its Rust `len()` in bytes equals its character count). -/
def ASCII_CHARS : String := " .,:;i1tfLCG08@"

/-- The fields of `VideoExtractor` (`src/video_extraction.rs`) that the ASCII
mapping reads: the configured grid and the invert flag, plus the audio
options. -/
structure VideoExtractor where
  ascii_width : Option Nat
  ascii_height : Option Nat
  ascii_invert : Bool
  audio_enabled : Bool
  audio_volume : Rat
deriving DecidableEq

/-- The luminance-to-glyph part of `VideoExtractor::pixel_to_ascii`
(`src/video_extraction.rs` lines 56–65): normalize, optionally invert, scale
by `ASCII_CHARS.len() - 1`, truncate to an index. -/
def VideoExtractor.glyphForLuminance (e : VideoExtractor) (pxBrightness : Rat) : Char :=
  let normalized := pxBrightness / 255
  let bIdx := if e.ascii_invert then 1 - normalized else normalized
  let asciiIdx := (⌊bIdx * ((ASCII_CHARS.length - 1 : Nat) : Rat)⌋).toNat
  nthCharOr ASCII_CHARS asciiIdx

/-- `VideoExtractor::pixel_to_ascii` (`src/video_extraction.rs` lines 51–66):
luminance `0.2126r + 0.7152g + 0.0722b`, then the glyph lookup. -/
def VideoExtractor.pixel_to_ascii (e : VideoExtractor) (r g b : Nat) : Char :=
  e.glyphForLuminance ((2126/10000 : Rat) * r + (7152/10000 : Rat) * g + (722/10000 : Rat) * b)

/-- `FrameBuffer` (`src/video_extraction/frame.rs`): frames, capacity and the
navigation cursor `position`. -/
structure FrameBuffer where
  frames : List Frame
  capacity : Nat
  position : Nat
deriving DecidableEq

/-- `FrameBuffer::new` (`frame.rs`). -/
def FrameBuffer.new (capacity : Nat) : FrameBuffer :=
  { frames := [], capacity := capacity, position := 0 }

/-- `FrameBuffer::push` (`frame.rs` lines 154–162): when full, remove the
oldest frame (index 0) and decrement a positive cursor, then append. -/
def FrameBuffer.push (b : FrameBuffer) (frame : Frame) : FrameBuffer :=
  let b' :=
    if b.capacity ≤ b.frames.length then
      { b with frames := b.frames.tail
               position := if 0 < b.position then b.position - 1 else b.position }
    else
      b
  { b' with frames := b'.frames ++ [frame] }

/-- `FrameBuffer::next` (`frame.rs` lines 185–193), returning the yielded
frame (if any) together with the mutated buffer. -/
def FrameBuffer.next (b : FrameBuffer) : Option Frame × FrameBuffer :=
  if h : b.position < b.frames.length then
    (some (b.frames.get ⟨b.position, h⟩), { b with position := b.position + 1 })
  else
    (none, b)

/-- `FrameBuffer::previous` (`frame.rs` lines 195–202): decrement a positive
cursor and return the frame now under it. -/
def FrameBuffer.previous (b : FrameBuffer) : Option Frame × FrameBuffer :=
  if 0 < b.position then
    (b.frames[b.position - 1]?, { b with position := b.position - 1 })
  else
    (none, b)

/-- `FrameBuffer::rewind` (`frame.rs`). -/
def FrameBuffer.rewind (b : FrameBuffer) : FrameBuffer :=
  { b with position := 0 }

/-- Rust `as i64` on an `f64`, on our rationals: truncation toward zero. -/
def ratTruncToInt (q : Rat) : Int :=
  if 0 ≤ q then ⌊q⌋ else -⌊-q⌋

/-- The `VideoReader` state (`src/video_extraction/reader.rs`) relevant to
seeking: whether `open()` has succeeded (`context.is_some()`), the demuxer
position it last sought to (in the microsecond time base handed to
`context.seek`), the emitted-frame counter, the decimation skip counter, and
the stream frame rate. -/
structure VideoReader where
  opened : Bool
  seekPosition : Int
  frame_count : Nat
  skip_counter : Nat
  frame_rate : Rat
deriving DecidableEq

/-- `VideoReader::seek` (`reader.rs` lines 158–169): fails when the video is
not opened; otherwise converts the time to the microsecond time base, seeks the
demuxer, and re-estimates `frame_count` as `(time_seconds * frame_rate) as u64`.
No other field is touched. -/
def VideoReader.seek (r : VideoReader) (time_seconds : Rat) : Option VideoReader :=
  if r.opened then
    some { r with
            seekPosition := ratTruncToInt (time_seconds * 1000000 / 1)
            frame_count := (⌊time_seconds * r.frame_rate⌋).toNat }
  else
    none

/-- The key codes handled by the `play_as_ascii` input match
(`src/video_extraction.rs` lines 453–546). -/
inductive KeyCode where
  | charQ
  | charP
  | charM
  | plus
  | minus
  | left
  | right
  | up
  | down
  | other
deriving DecidableEq

/-- The mutable playback state of the `play_as_ascii` loop
(`src/video_extraction.rs`): pause flag, frame cursor, per-frame delay in ms,
volume, mute flag, and the instant of the last frame advance (ms). -/
structure PlaybackState where
  paused : Bool
  current_frame : Nat
  current_delay : Nat
  current_volume : Rat
  audio_muted : Bool
  last_frame_time : Nat
deriving DecidableEq

/-- The state effect of one key in the command-drain match of `play_as_ascii`
(`src/video_extraction.rs` lines 453–547).  `q` tears the session down and
returns without mutating the playback state, so it is an identity here; the
audio-sink side effects are not part of this state. -/
def handleKey (total_frames : Nat) (s : PlaybackState) (k : KeyCode) : PlaybackState :=
  match k with
  | .charQ => s
  | .charP => { s with paused := !s.paused }
  | .charM => { s with audio_muted := !s.audio_muted }
  | .plus => { s with current_volume := min (s.current_volume + 1/10) 1 }
  | .minus => { s with current_volume := max (s.current_volume - 1/10) 0 }
  | .left =>
      { s with current_delay := (⌊min ((s.current_delay : Rat) * (12/10)) 500⌋).toNat }
  | .right =>
      { s with current_delay := (⌊max ((s.current_delay : Rat) * (8/10)) 16⌋).toNat }
  | .up =>
      { s with current_frame := if 10 ≤ s.current_frame then s.current_frame - 10 else 0 }
  | .down =>
      { s with current_frame :=
          if s.current_frame + 10 < total_frames then s.current_frame + 10 else s.current_frame }
  | .other => s

/-- The frame-advance step of the `play_as_ascii` loop
(`src/video_extraction.rs` lines 550–556): if not paused and the elapsed time
since the last advance reaches the current delay, advance the frame cursor
modulo `total_frames` and reset the timer.  Time is in milliseconds; the
monotonic clock guarantees `last_frame_time ≤ now`. -/
def tick (total_frames : Nat) (s : PlaybackState) (now : Nat) : PlaybackState :=
  if s.paused = false ∧ s.current_delay ≤ now - s.last_frame_time then
    { s with last_frame_time := now
             current_frame := (s.current_frame + 1) % total_frames }
  else
    s

/-- Rust's `%` on machine integers: a fault (`None`) when the divisor is 0. -/
def rustMod (a b : Nat) : Option Nat :=
  if b = 0 then none else some (a % b)

/-- Rust's vector indexing `v[i]`: a fault (`None`) when out of bounds. -/
def vecGet (xs : List α) (i : Nat) : Option α := xs[i]?

/-- The tick step of `play_as_ascii` with its two partial operations made
explicit: the advance `(current_frame + 1) % total_frames` (line 555) and the
render-time lookup `ascii_frames[current_frame]` (line 605).  `none` is a
Rust panic. -/
def tickRender (ascii_frames : List String) (s : PlaybackState) (now : Nat) :
    Option (PlaybackState × String) :=
  let total_frames := ascii_frames.length
  let stepped : Option PlaybackState :=
    if s.paused = false ∧ s.current_delay ≤ now - s.last_frame_time then
      (rustMod (s.current_frame + 1) total_frames).map fun cf =>
        { s with last_frame_time := now, current_frame := cf }
    else
      some s
  stepped.bind fun s' =>
    (vecGet ascii_frames s'.current_frame).map fun content => (s', content)

/-! ## Concrete fixtures for witness and counterexample theorems -/

/-- A default 1×1 converter (`AsciiConverter::new` defaults). -/
def cDefault : AsciiConverter :=
  { width := 1, height := 1, char_set := .simple, use_color := false,
    brightness := 0, contrast := 1 }

/-- A 1×1 all-black frame. -/
def blackFrame1 : Frame :=
  { width := 1, height := 1, data := List.replicate 3 0, timestamp := 0, index := 0 }

/-- An extractor with the invert option set. -/
def eInv : VideoExtractor :=
  { ascii_width := some 4, ascii_height := some 2, ascii_invert := true,
    audio_enabled := false, audio_volume := 1/2 }

/-- An extractor with the invert option cleared. -/
def eNoInv : VideoExtractor := { eInv with ascii_invert := false }

/-- An opened reader whose decimation counter is mid-cycle at 3. -/
def rdr3 : VideoReader :=
  { opened := true, seekPosition := 0, frame_count := 7, skip_counter := 3, frame_rate := 30 }

/-- A playing state at frame 8 with a 100 ms delay. -/
def ps8 : PlaybackState :=
  { paused := false, current_frame := 8, current_delay := 100, current_volume := 1/2,
    audio_muted := false, last_frame_time := 0 }

/-- The same state, paused. -/
def psPaused : PlaybackState := { ps8 with paused := true }

/-- Two distinct 1×1 frames. -/
def frameA : Frame := { width := 1, height := 1, data := [1, 2, 3], timestamp := 0, index := 0 }

/-- Second fixture frame. -/
def frameB : Frame := { width := 1, height := 1, data := [4, 5, 6], timestamp := 1, index := 1 }

/-- A full two-slot buffer with the cursor on its second frame. -/
def fb2 : FrameBuffer := { frames := [frameA, frameB], capacity := 2, position := 1 }

/-! ## Helper lemmas -/

theorem length_filterMap_of_isSome {α β : Type} (f : α → Option β) (l : List α)
    (h : ∀ x ∈ l, (f x).isSome) : (l.filterMap f).length = l.length := by
  induction l with
  | nil => rfl
  | cons a l ih =>
      have ha := h a (List.mem_cons_self a l)
      rcases Option.isSome_iff_exists.mp ha with ⟨b, hb⟩
      simp [List.filterMap_cons, hb, ih fun x hx => h x (List.mem_cons_of_mem a hx)]

theorem to_grayscale_length (f : Frame) : f.to_grayscale.length = f.width * f.height := by
  simp [Frame.to_grayscale]

theorem resize_width (f : Frame) (w h : Nat) : (f.resize w h).width = w := rfl

theorem resize_height (f : Frame) (w h : Nat) : (f.resize w h).height = h := rfl

theorem resizedOf_width (c : AsciiConverter) (frame : Frame) :
    (c.resizedOf frame).width = c.width := by
  by_cases hc : frame.width ≠ c.width ∨ frame.height ≠ c.height
  · rw [AsciiConverter.resizedOf, if_pos hc]; rfl
  · push_neg at hc
    rw [AsciiConverter.resizedOf, if_neg (by simp [hc.1, hc.2])]
    exact hc.1

theorem height_le_resizedOf (c : AsciiConverter) (frame : Frame) :
    c.height ≤ (c.resizedOf frame).height := by
  by_cases hc : frame.width ≠ c.width ∨ frame.height ≠ c.height
  · rw [AsciiConverter.resizedOf, if_pos hc]
    show c.height ≤ c.height * 2
    omega
  · push_neg at hc
    rw [AsciiConverter.resizedOf, if_neg (by simp [hc.1, hc.2])]
    exact le_of_eq hc.2.symm

theorem convert_cell_index_lt (c : AsciiConverter) (frame : Frame) (x y : Nat)
    (hx : x < c.width) (hy : y < c.height) :
    y * (c.resizedOf frame).width + x < (c.resizedOf frame).to_grayscale.length := by
  rw [to_grayscale_length, resizedOf_width]
  have hh := height_le_resizedOf c frame
  calc y * c.width + x < (y + 1) * c.width := by nlinarith
    _ ≤ c.height * c.width := Nat.mul_le_mul_right _ (by omega)
    _ ≤ (c.resizedOf frame).height * c.width := Nat.mul_le_mul_right _ hh
    _ = c.width * (c.resizedOf frame).height := Nat.mul_comm _ _

theorem cellFor_isSome (c : AsciiConverter) (frame : Frame) (x y : Nat)
    (hx : x < c.width) (hy : y < c.height) :
    (c.cellFor (c.resizedOf frame) (c.resizedOf frame).to_grayscale y x).isSome := by
  rw [AsciiConverter.cellFor]
  simp only [if_pos (convert_cell_index_lt c frame x y hx hy), Option.isSome_some]

/-- C4 core: the per-cell loop of `convert` never takes the `continue`
branch, so each row contributes exactly `width` cells. -/
theorem convert_data_length (c : AsciiConverter) (frame : Frame) :
    (c.convert frame).data.length = c.width * c.height := by
  show ((List.range c.height).flatMap fun y =>
    (List.range c.width).filterMap
      (c.cellFor (c.resizedOf frame) (c.resizedOf frame).to_grayscale y)).length = _
  rw [List.length_flatMap]
  simp only [Function.comp_def]
  rw [List.map_congr_left (g := fun _ => c.width) fun y hy => by
    rw [length_filterMap_of_isSome _ _ fun x hx =>
      cellFor_isSome c frame x y (List.mem_range.mp hx) (List.mem_range.mp hy)]
    exact List.length_range c.width]
  simp [List.map_const', List.sum_replicate, smul_eq_mul, Nat.mul_comm]

/-- C4 — For every input frame (any width, height and pixel-buffer length) and
every converter configuration with grid `W × H`, `convert` returns an
`AsciiFrame` whose `data` has length exactly `W*H` (the per-cell loop never
skips a cell) and whose `width`/`height` fields are `W` and `H`. -/
theorem convert_shape (c : AsciiConverter) (frame : Frame) :
    (c.convert frame).data.length = c.width * c.height ∧
    (c.convert frame).width = c.width ∧
    (c.convert frame).height = c.height :=
  ⟨convert_data_length c frame, rfl, rfl⟩

theorem getD_map_range {g : Nat → Nat} {n i : Nat} (h : i < n) :
    ((List.range n).map g).getD i 0 = g i := by
  rw [List.getD_eq_getElem?_getD, List.getElem?_map, List.getElem?_range h]
  rfl

theorem replicate_getD {n v i : Nat} (h : i < n) : (List.replicate n v).getD i 0 = v := by
  rw [List.getD_eq_getElem?_getD, List.getElem?_replicate]
  simp [h]

theorem to_grayscale_const (f : Frame) (v : Nat)
    (hd : f.data = List.replicate (f.width * f.height * 3) v) {i : Nat}
    (hi : i < f.width * f.height) :
    f.to_grayscale.getD i 0 = luma v v v := by
  have hlen : f.data.length = f.width * f.height * 3 := by
    rw [hd, List.length_replicate]
  have himg : f.imageData = f.data := by
    rw [Frame.imageData]
    simp [hlen]
  show ((List.range (f.width * f.height)).map _).getD i 0 = _
  rw [getD_map_range hi, himg, hd]
  have hN : i < f.width * f.height := hi
  rw [replicate_getD (by omega), replicate_getD (by omega), replicate_getD (by omega)]

theorem convert_mem_cellFor (c : AsciiConverter) (frame : Frame) (cell : AsciiChar)
    (hmem : cell ∈ (c.convert frame).data) :
    ∃ y x, y < c.height ∧ x < c.width ∧
      c.cellFor (c.resizedOf frame) (c.resizedOf frame).to_grayscale y x = some cell := by
  have hmem' : cell ∈ (List.range c.height).flatMap fun y =>
      (List.range c.width).filterMap
        (c.cellFor (c.resizedOf frame) (c.resizedOf frame).to_grayscale y) := hmem
  rcases List.mem_flatMap.mp hmem' with ⟨y, hy, hcell⟩
  rcases List.mem_filterMap.mp hcell with ⟨x, hx, heq⟩
  exact ⟨y, x, List.mem_range.mp hy, List.mem_range.mp hx, heq⟩

/-- Under matching dimensions and a constant pixel buffer, every cell of
`convert`'s output carries the glyph the ramp assigns to the constant's
luminance. -/
theorem convert_const_char (c : AsciiConverter) (frame : Frame) (v : Nat)
    (hw : frame.width = c.width) (hh : frame.height = c.height)
    (hd : frame.data = List.replicate (frame.width * frame.height * 3) v)
    (cell : AsciiChar) (hmem : cell ∈ (c.convert frame).data) :
    cell.character = nthCharOr c.char_set.get_chars (c.charIdxOf (luma v v v)) := by
  have hres : c.resizedOf frame = frame := by
    rw [AsciiConverter.resizedOf, if_neg (by simp [hw, hh])]
  rcases convert_mem_cellFor c frame cell hmem with ⟨y, x, hy, hx, heq⟩
  rw [hres] at heq
  have hidx : y * frame.width + x < frame.width * frame.height := by
    calc y * frame.width + x < (y + 1) * frame.width := by nlinarith [hx, hw]
      _ ≤ frame.height * frame.width := Nat.mul_le_mul_right _ (by omega)
      _ = frame.width * frame.height := Nat.mul_comm _ _
  have hlt : y * frame.width + x < frame.to_grayscale.length := by
    rw [to_grayscale_length]; exact hidx
  rw [AsciiConverter.cellFor] at heq
  simp only [if_pos hlt] at heq
  rw [to_grayscale_const frame v hd hidx] at heq
  cases heq
  rfl

theorem adjustedOf_nonneg (c : AsciiConverter) (l : Nat) : 0 ≤ c.adjustedOf l :=
  le_max_left 0 _

theorem adjustedOf_le_one (c : AsciiConverter) (l : Nat) : c.adjustedOf l ≤ 1 :=
  max_le (by norm_num) (min_le_right _ _)

theorem charIdxOf_le (c : AsciiConverter) (l : Nat) :
    c.charIdxOf l ≤ c.char_set.get_chars.length - 1 := by
  rw [AsciiConverter.charIdxOf]
  have h1 : ((c.char_set.get_chars.length - 1 : Nat) : Rat) * c.adjustedOf l
      ≤ ((c.char_set.get_chars.length - 1 : Nat) : Rat) :=
    mul_le_of_le_one_right (by positivity) (adjustedOf_le_one c l)
  have h2 := Int.floor_le_floor h1
  rw [Int.floor_natCast] at h2
  omega

theorem adjustedOf_default (c : AsciiConverter) (hb : c.brightness = 0)
    (hc : c.contrast = 1) (l : Nat) (hl : l ≤ 255) :
    c.adjustedOf l = (l : Rat) / 255 := by
  rw [AsciiConverter.adjustedOf, hb, hc]
  have h0 : (0 : Rat) ≤ (l : Rat) / 255 := by positivity
  have h1 : (l : Rat) / 255 ≤ 1 := by
    rw [div_le_one (by norm_num)]
    exact_mod_cast hl
  have harith : ((l : Rat) / 255 - 1/2) * 1 + 1/2 + 0 = (l : Rat) / 255 := by ring
  rw [harith, rclamp, min_eq_left h1, max_eq_right h0]

theorem charIdxOf_zero (c : AsciiConverter) (hb : c.brightness = 0)
    (hc : c.contrast = 1) : c.charIdxOf 0 = 0 := by
  rw [AsciiConverter.charIdxOf, adjustedOf_default c hb hc 0 (by omega)]
  norm_num

theorem charIdxOf_full (c : AsciiConverter) (hb : c.brightness = 0)
    (hc : c.contrast = 1) : c.charIdxOf 255 = c.char_set.get_chars.length - 1 := by
  rw [AsciiConverter.charIdxOf, adjustedOf_default c hb hc 255 le_rfl]
  norm_num [Int.floor_natCast]

theorem glyphForLuminance_invert (e e' : VideoExtractor)
    (hi : e.ascii_invert = true) (hi' : e'.ascii_invert = false)
    (L : Nat) (hL : L ≤ 255) :
    e.glyphForLuminance (L : Rat) = e'.glyphForLuminance ((255 - L : Nat) : Rat) := by
  rw [VideoExtractor.glyphForLuminance, VideoExtractor.glyphForLuminance, hi, hi']
  simp only [if_true, if_false, Bool.false_eq_true]
  have hcast : ((255 - L : Nat) : Rat) = 255 - (L : Rat) := by
    push_cast [hL]
    ring
  rw [hcast]
  have harith : (255 - (L : Rat)) / 255 = 1 - (L : Rat) / 255 := by ring
  rw [harith]

theorem pixel_to_ascii_black_inverted (e : VideoExtractor) (hi : e.ascii_invert = true) :
    e.pixel_to_ascii 0 0 0 = nthCharOr ASCII_CHARS (ASCII_CHARS.length - 1) := by
  rw [VideoExtractor.pixel_to_ascii]
  have hb : (2126/10000 : Rat) * (0 : Nat) + (7152/10000 : Rat) * (0 : Nat)
      + (722/10000 : Rat) * (0 : Nat) = (0 : Rat) := by norm_num
  rw [hb, VideoExtractor.glyphForLuminance, hi]
  norm_num [Int.floor_natCast]

theorem pixel_to_ascii_white_inverted (e : VideoExtractor) (hi : e.ascii_invert = true) :
    e.pixel_to_ascii 255 255 255 = nthCharOr ASCII_CHARS 0 := by
  rw [VideoExtractor.pixel_to_ascii]
  have hb : (2126/10000 : Rat) * (255 : Nat) + (7152/10000 : Rat) * (255 : Nat)
      + (722/10000 : Rat) * (255 : Nat) = (255 : Rat) := by norm_num
  rw [hb, VideoExtractor.glyphForLuminance, hi]
  norm_num

/-- C3 — With default settings (contrast 1, brightness 0) an all-black frame
maps every cell to the first (darkest) glyph of the configured ramp and an
all-white frame maps every cell to the last (brightest) glyph; with the invert
option set, the glyph chosen for luminance `L` equals the glyph chosen for
luminance `255-L` without inversion, so all-black maps to the brightest glyph
and all-white to the darkest. -/
theorem convert_black_white_invert :
    (∀ (c : AsciiConverter) (frame : Frame),
        c.brightness = 0 → c.contrast = 1 →
        frame.width = c.width → frame.height = c.height →
        (frame.data = List.replicate (frame.width * frame.height * 3) 0 →
          ∀ cell ∈ (c.convert frame).data,
            cell.character = nthCharOr c.char_set.get_chars 0) ∧
        (frame.data = List.replicate (frame.width * frame.height * 3) 255 →
          ∀ cell ∈ (c.convert frame).data,
            cell.character =
              nthCharOr c.char_set.get_chars (c.char_set.get_chars.length - 1))) ∧
    (∀ e e' : VideoExtractor, e.ascii_invert = true → e'.ascii_invert = false →
        (∀ L : Nat, L ≤ 255 →
          e.glyphForLuminance (L : Rat) = e'.glyphForLuminance ((255 - L : Nat) : Rat)) ∧
        e.pixel_to_ascii 0 0 0 = nthCharOr ASCII_CHARS (ASCII_CHARS.length - 1) ∧
        e.pixel_to_ascii 255 255 255 = nthCharOr ASCII_CHARS 0) := by
  constructor
  · intro c frame hb hc hw hh
    constructor
    · intro hd cell hmem
      rw [convert_const_char c frame 0 hw hh hd cell hmem,
        show luma 0 0 0 = 0 from rfl, charIdxOf_zero c hb hc]
    · intro hd cell hmem
      rw [convert_const_char c frame 255 hw hh hd cell hmem,
        show luma 255 255 255 = 255 by decide, charIdxOf_full c hb hc]
  · intro e e' hi hi'
    exact ⟨glyphForLuminance_invert e e' hi hi',
      pixel_to_ascii_black_inverted e hi, pixel_to_ascii_white_inverted e hi⟩

/-- C6 — With contrast 1 and brightness 0 the luminance-to-glyph index of
`convert` is monotone non-decreasing on luminances in `[0,255]`, and every
computed glyph index lies in `[0, ramp_length - 1]`. -/
theorem charIdxOf_monotone_bounded (c : AsciiConverter)
    (hc : c.contrast = 1) (hb : c.brightness = 0) :
    (∀ l1 l2 : Nat, l1 ≤ l2 → l2 ≤ 255 → c.charIdxOf l1 ≤ c.charIdxOf l2) ∧
    (∀ l : Nat, l ≤ 255 → c.charIdxOf l ≤ c.char_set.get_chars.length - 1) := by
  constructor
  · intro l1 l2 h12 h2
    rw [AsciiConverter.charIdxOf, AsciiConverter.charIdxOf,
      adjustedOf_default c hb hc l1 (le_trans h12 h2), adjustedOf_default c hb hc l2 h2]
    have hmono : ((c.char_set.get_chars.length - 1 : Nat) : Rat) * ((l1 : Rat) / 255)
        ≤ ((c.char_set.get_chars.length - 1 : Nat) : Rat) * ((l2 : Rat) / 255) := by
      have hcast : (l1 : Rat) ≤ (l2 : Rat) := by exact_mod_cast h12
      gcongr
    exact Int.toNat_le_toNat (Int.floor_le_floor hmono)
  · intro l _
    exact charIdxOf_le c l

theorem handleKey_delay_bounds (t : Nat) (s : PlaybackState) (k : KeyCode)
    (h16 : 16 ≤ s.current_delay) (h500 : s.current_delay ≤ 500) :
    16 ≤ (handleKey t s k).current_delay ∧ (handleKey t s k).current_delay ≤ 500 := by
  have hd0 : (0 : Rat) ≤ (s.current_delay : Rat) := Nat.cast_nonneg _
  cases k
  case charQ => exact ⟨h16, h500⟩
  case charP => exact ⟨h16, h500⟩
  case charM => exact ⟨h16, h500⟩
  case plus => exact ⟨h16, h500⟩
  case minus => exact ⟨h16, h500⟩
  case up => exact ⟨h16, h500⟩
  case down => exact ⟨h16, h500⟩
  case other => exact ⟨h16, h500⟩
  case left =>
    show 16 ≤ (⌊min ((s.current_delay : Rat) * (12/10)) 500⌋).toNat ∧
      (⌊min ((s.current_delay : Rat) * (12/10)) 500⌋).toNat ≤ 500
    have hge : (16 : Rat) ≤ min ((s.current_delay : Rat) * (12/10)) 500 := by
      refine le_min ?_ (by norm_num)
      calc (16 : Rat) ≤ (s.current_delay : Rat) := by exact_mod_cast h16
        _ ≤ (s.current_delay : Rat) * (12/10) :=
            le_mul_of_one_le_right hd0 (by norm_num)
    have hle : min ((s.current_delay : Rat) * (12/10)) 500 ≤ (500 : Rat) :=
      min_le_right _ _
    have hf1 : (16 : Int) ≤ ⌊min ((s.current_delay : Rat) * (12/10)) 500⌋ := by
      apply Int.le_floor.mpr
      exact_mod_cast hge
    have hf2 : ⌊min ((s.current_delay : Rat) * (12/10)) 500⌋ ≤ (500 : Int) := by
      have h := Int.floor_le_floor hle
      simpa using h
    omega
  case right =>
    show 16 ≤ (⌊max ((s.current_delay : Rat) * (8/10)) 16⌋).toNat ∧
      (⌊max ((s.current_delay : Rat) * (8/10)) 16⌋).toNat ≤ 500
    have hge : (16 : Rat) ≤ max ((s.current_delay : Rat) * (8/10)) 16 :=
      le_max_right _ _
    have hle : max ((s.current_delay : Rat) * (8/10)) 16 ≤ (500 : Rat) := by
      refine max_le ?_ (by norm_num)
      calc (s.current_delay : Rat) * (8/10) ≤ (s.current_delay : Rat) :=
            mul_le_of_le_one_right hd0 (by norm_num)
        _ ≤ (500 : Rat) := by exact_mod_cast h500
    have hf1 : (16 : Int) ≤ ⌊max ((s.current_delay : Rat) * (8/10)) 16⌋ := by
      apply Int.le_floor.mpr
      exact_mod_cast hge
    have hf2 : ⌊max ((s.current_delay : Rat) * (8/10)) 16⌋ ≤ (500 : Int) := by
      have h := Int.floor_le_floor hle
      simpa using h
    omega

/-- C5 — Starting from a per-frame delay in `[16, 500]` ms, the delay after
any sequence of key commands (in particular any mix of "slower" ×1.2-capped
and "faster" ×0.8-floored commands) remains in `[16, 500]` ms. -/
theorem delay_clamp_invariant (total : Nat) (s : PlaybackState) (ks : List KeyCode)
    (h16 : 16 ≤ s.current_delay) (h500 : s.current_delay ≤ 500) :
    16 ≤ (ks.foldl (handleKey total) s).current_delay ∧
    (ks.foldl (handleKey total) s).current_delay ≤ 500 := by
  induction ks generalizing s with
  | nil => exact ⟨h16, h500⟩
  | cons k ks ih =>
      have h := handleKey_delay_bounds total s k h16 h500
      exact ih (handleKey total s k) h.1 h.2

/-- C5 witness: from delay 100 ms, one "slower" then two "faster" commands
stay inside `[16, 500]`. -/
theorem delay_clamp_invariant_witness :
    16 ≤ ps8.current_delay ∧ ps8.current_delay ≤ 500 ∧
    16 ≤ ([KeyCode.left, KeyCode.right, KeyCode.right].foldl (handleKey 15) ps8).current_delay ∧
    ([KeyCode.left, KeyCode.right, KeyCode.right].foldl (handleKey 15) ps8).current_delay ≤ 500 :=
  ⟨by decide, by decide,
    (delay_clamp_invariant 15 ps8 [KeyCode.left, KeyCode.right, KeyCode.right]
      (by decide) (by decide)).1,
    (delay_clamp_invariant 15 ps8 [KeyCode.left, KeyCode.right, KeyCode.right]
      (by decide) (by decide)).2⟩

/-- C2 counterexample — the claim predicts a skip-forward at frame 8 of 15 is
clamped to `min(8+10, 15-1) = 14`; the code leaves `current_frame` at 8
because `8 + 10 < 15` fails. -/
theorem skip_forward_not_clamped :
    (handleKey 15 ps8 KeyCode.down).current_frame = 8 ∧
    (handleKey 15 ps8 KeyCode.down).current_frame ≠ min (8 + 10) (15 - 1) := by
  constructor
  · rfl
  · have he : (handleKey 15 ps8 KeyCode.down).current_frame = 8 := rfl
    rw [he]
    decide

/-- C2 (amended) — a skip-back command yields `max(current_frame - 10, 0)`
(here: truncated `Nat` subtraction); a skip-forward command advances by 10
only when `current_frame + 10 < total_frames` and otherwise leaves
`current_frame` unchanged (it is not clamped to `total_frames - 1`); both
results stay inside `[0, total_frames)`. -/
theorem skip_clamps (total : Nat) (s : PlaybackState)
    (htot : 0 < total) (hcf : s.current_frame < total) :
    ((handleKey total s KeyCode.up).current_frame = s.current_frame - 10 ∧
      (handleKey total s KeyCode.up).current_frame < total) ∧
    ((handleKey total s KeyCode.down).current_frame =
        (if s.current_frame + 10 < total then s.current_frame + 10 else s.current_frame) ∧
      (handleKey total s KeyCode.down).current_frame < total) := by
  refine ⟨⟨?_, ?_⟩, ?_, ?_⟩
  · show (if 10 ≤ s.current_frame then s.current_frame - 10 else 0) = s.current_frame - 10
    split <;> omega
  · show (if 10 ≤ s.current_frame then s.current_frame - 10 else 0) < total
    split <;> omega
  · rfl
  · show (if s.current_frame + 10 < total then s.current_frame + 10 else s.current_frame) < total
    split <;> omega

/-- C2 witness: at frame 8 of 15 a skip-back lands on 0 and a skip-forward
stays at 8; both in range. -/
theorem skip_clamps_witness :
    0 < 15 ∧ ps8.current_frame < 15 ∧
    (handleKey 15 ps8 KeyCode.up).current_frame = ps8.current_frame - 10 ∧
    (handleKey 15 ps8 KeyCode.down).current_frame < 15 :=
  ⟨by decide, by decide,
    ((skip_clamps 15 ps8 (by decide) (by decide)).1).1,
    ((skip_clamps 15 ps8 (by decide) (by decide)).2).2⟩

/-- C1 counterexample — `seek` does not reset the decimation skip counter: on
an opened reader with `skip_counter = 3`, after a successful `seek(1.0)` the
counter still reads 3, not 0. -/
theorem seek_keeps_skip_counter :
    rdr3.opened = true ∧
    (rdr3.seek 1).map VideoReader.skip_counter = some 3 ∧
    (rdr3.seek 1).map VideoReader.skip_counter ≠ some 0 := by
  refine ⟨rfl, rfl, ?_⟩
  intro h
  rw [show (rdr3.seek 1).map VideoReader.skip_counter = some 3 from rfl] at h
  exact absurd (Option.some.inj h) (by decide)

/-- C1 (amended) — for every opened reader, `seek(t)` repositions the demuxer
to the truncated microsecond timestamp, re-estimates `frame_count` as
`t * frame_rate` truncated (floor for non-negative values), and leaves
`skip_counter` — and every other field — unchanged. -/
theorem seek_spec (r : VideoReader) (t : Rat) (h : r.opened = true) :
    r.seek t = some { r with
      seekPosition := ratTruncToInt (t * 1000000 / 1)
      frame_count := (⌊t * r.frame_rate⌋).toNat } ∧
    (r.seek t).map VideoReader.skip_counter = some r.skip_counter := by
  constructor
  · rw [VideoReader.seek, if_pos h]
  · rw [VideoReader.seek, if_pos h]
    rfl

/-- C1 witness: a successful seek on the opened fixture reader preserves its
skip counter. -/
theorem seek_spec_witness :
    rdr3.opened = true ∧
    (rdr3.seek 2).map VideoReader.skip_counter = some rdr3.skip_counter :=
  ⟨rfl, (seek_spec rdr3 2 rfl).2⟩

theorem push_capacity (b : FrameBuffer) (fr : Frame) :
    (b.push fr).capacity = b.capacity := by
  rw [FrameBuffer.push]
  split <;> rfl

theorem push_length_le (b : FrameBuffer) (fr : Frame)
    (hcap : 1 ≤ b.capacity) (hlen : b.frames.length ≤ b.capacity) :
    (b.push fr).frames.length ≤ b.capacity := by
  rw [FrameBuffer.push]
  split
  · next hfull =>
      simp only [List.length_append, List.length_tail, List.length_cons, List.length_nil]
      omega
  · next hnotfull =>
      simp only [List.length_append, List.length_cons, List.length_nil]
      omega

theorem foldl_push_invariant (pushes : List Frame) (b : FrameBuffer)
    (hcap : 1 ≤ b.capacity) (hlen : b.frames.length ≤ b.capacity) :
    (pushes.foldl FrameBuffer.push b).capacity = b.capacity ∧
    (pushes.foldl FrameBuffer.push b).frames.length ≤ b.capacity := by
  induction pushes generalizing b with
  | nil => exact ⟨rfl, hlen⟩
  | cons fr pushes ih =>
      rw [List.foldl_cons]
      have hcap' : 1 ≤ (b.push fr).capacity := by rw [push_capacity]; exact hcap
      have hlen' : (b.push fr).frames.length ≤ (b.push fr).capacity := by
        rw [push_capacity]; exact push_length_le b fr hcap hlen
      have h := ih (b.push fr) hcap' hlen'
      rw [push_capacity] at h
      exact h

theorem push_full_evicts (b : FrameBuffer) (fr : Frame)
    (hfull : b.frames.length = b.capacity) (hpos : 0 < b.position) :
    (b.push fr).frames = b.frames.tail ++ [fr] ∧
    (b.push fr).position = b.position - 1 := by
  rw [FrameBuffer.push]
  rw [if_pos (le_of_eq hfull.symm)]
  exact ⟨rfl, by simp [hpos]⟩

/-- C7 — a buffer created with capacity `C ≥ 1` never stores more than `C`
frames across any sequence of pushes; once full, each push drops the oldest
frame (index 0) and decrements a positive cursor, so the cursor keeps
pointing at the same surviving frame. -/
theorem frameBuffer_capacity_cursor (C : Nat) (hC : 1 ≤ C) (pushes : List Frame) :
    (pushes.foldl FrameBuffer.push (FrameBuffer.new C)).frames.length ≤ C ∧
    (∀ (b : FrameBuffer) (fr : Frame),
      b.frames.length = b.capacity → 0 < b.position →
      (b.push fr).frames = b.frames.tail ++ [fr] ∧
      (b.push fr).position = b.position - 1 ∧
      (b.position < b.frames.length →
        (b.push fr).frames[b.position - 1]? = b.frames[b.position]?)) := by
  constructor
  · exact (foldl_push_invariant pushes (FrameBuffer.new C) hC (by simp [FrameBuffer.new])).2
  · intro b fr hfull hpos
    have h := push_full_evicts b fr hfull hpos
    refine ⟨h.1, h.2, ?_⟩
    intro hlt
    rw [h.1]
    rw [List.getElem?_append_left (by rw [List.length_tail]; omega)]
    have htail : b.frames.tail[b.position - 1]? = b.frames[b.position - 1 + 1]? :=
      List.getElem?_tail _ _
    rw [htail]
    congr 1
    omega

/-- C7 witness: pushing three frames into a capacity-2 buffer keeps it at two
frames; a push on the full fixture buffer with cursor 1 moves the cursor to 0,
still over `frameB`. -/
theorem frameBuffer_capacity_cursor_witness :
    1 ≤ 2 ∧
    ([frameA, frameB, frameA].foldl FrameBuffer.push (FrameBuffer.new 2)).frames.length ≤ 2 ∧
    fb2.frames.length = fb2.capacity ∧ 0 < fb2.position ∧
    (fb2.push frameA).position = fb2.position - 1 ∧
    (fb2.push frameA).frames[fb2.position - 1]? = fb2.frames[fb2.position]? :=
  ⟨by decide,
    (frameBuffer_capacity_cursor 2 (by decide) [frameA, frameB, frameA]).1,
    by decide, by decide,
    ((frameBuffer_capacity_cursor 2 (by decide) []).2 fb2 frameA rfl (by decide)).2.1,
    ((frameBuffer_capacity_cursor 2 (by decide) []).2 fb2 frameA rfl (by decide)).2.2
      (by decide)⟩

/-- C8 — whenever `next()` succeeds (cursor in range), an immediate
`previous()` succeeds, returns the very frame `next()` returned, and restores
the cursor (and the whole buffer) to its pre-`next` state; when the cursor is
out of range, `next()` — and, at cursor 0, `previous()` — return an absent
result and leave the buffer untouched (the operations are total: never a
fault). -/
theorem next_previous_roundtrip :
    (∀ b : FrameBuffer, b.position < b.frames.length →
        (b.next.1).isSome = true ∧
        b.next.1 = b.frames[b.position]? ∧
        (b.next.2).previous = (b.next.1, b)) ∧
    (∀ b : FrameBuffer, b.frames.length ≤ b.position → b.next = (none, b)) ∧
    (∀ b : FrameBuffer, b.position = 0 → b.previous = (none, b)) := by
  refine ⟨?_, ?_, ?_⟩
  · intro b h
    rw [FrameBuffer.next, dif_pos h]
    refine ⟨rfl, ?_, ?_⟩
    · rw [List.getElem?_eq_getElem h]
      rfl
    · show FrameBuffer.previous { b with position := b.position + 1 } = _
      rw [FrameBuffer.previous, if_pos (by omega : 0 < b.position + 1)]
      have hidx : b.position + 1 - 1 = b.position := by omega
      simp only [hidx]
      rw [List.getElem?_eq_getElem h]
      rfl
  · intro b h
    rw [FrameBuffer.next, dif_neg (by omega)]
  · intro b h
    rw [FrameBuffer.previous, if_neg (by omega)]

/-- C8 witness: on the fixture buffer (cursor 1 of 2) `next` yields the second
frame and `previous` immediately after returns the same frame and restores
the buffer. -/
theorem next_previous_roundtrip_witness :
    fb2.position < fb2.frames.length ∧
    (fb2.next.1).isSome = true ∧
    (fb2.next.2).previous = (fb2.next.1, fb2) :=
  ⟨by decide,
    (next_previous_roundtrip.1 fb2 (by decide)).1,
    (next_previous_roundtrip.1 fb2 (by decide)).2.2⟩

theorem tick_paused_eq (total : Nat) (s : PlaybackState) (now : Nat)
    (h : s.paused = true) : tick total s now = s := by
  rw [tick, if_neg]
  intro hcon
  rw [h] at hcon
  exact absurd hcon.1 (by decide)

/-- C9 — while paused, no number of tick iterations at any instants changes
`current_frame` (the state is untouched); when not paused, the tick advances
`current_frame` by exactly one modulo `total_frames` and resets the elapsed
timer (`last_frame_time := now`) precisely when the elapsed time since the
last advance has reached the current per-frame delay, and leaves the state
untouched otherwise. -/
theorem pause_freeze_and_advance (total : Nat) (s : PlaybackState) (now : Nat)
    (times : List Nat) :
    (s.paused = true →
      times.foldl (tick total) s = s ∧
      (times.foldl (tick total) s).current_frame = s.current_frame) ∧
    (s.paused = false → 0 < total → s.last_frame_time ≤ now →
      (s.current_delay ≤ now - s.last_frame_time →
        tick total s now = { s with
          current_frame := (s.current_frame + 1) % total
          last_frame_time := now }) ∧
      (now - s.last_frame_time < s.current_delay → tick total s now = s)) := by
  constructor
  · intro hp
    have hfold : ∀ (ts : List Nat) (s' : PlaybackState), s'.paused = true →
        ts.foldl (tick total) s' = s' := by
      intro ts
      induction ts with
      | nil => intro s' _; rfl
      | cons t ts ih =>
          intro s' hp'
          rw [List.foldl_cons, tick_paused_eq total s' t hp']
          exact ih s' hp'
    exact ⟨hfold times s hp, by rw [hfold times s hp]⟩
  · intro hp htot hle
    constructor
    · intro hd
      rw [tick, if_pos ⟨hp, hd⟩]
    · intro hd
      rw [tick, if_neg]
      intro hcon
      omega
  
/-- C9 witness: three paused ticks leave frame 8 in place; an unpaused tick
at elapsed 150 ms ≥ delay 100 ms advances to frame 9 and resets the timer. -/
theorem pause_freeze_and_advance_witness :
    psPaused.paused = true ∧
    ([40, 90, 140].foldl (tick 15) psPaused).current_frame = psPaused.current_frame ∧
    ps8.paused = false ∧ 0 < 15 ∧ ps8.last_frame_time ≤ 150 ∧
    ps8.current_delay ≤ 150 - ps8.last_frame_time ∧
    tick 15 ps8 150 = { ps8 with
      current_frame := (ps8.current_frame + 1) % 15
      last_frame_time := 150 } :=
  ⟨rfl,
    ((pause_freeze_and_advance 15 psPaused 0 [40, 90, 140]).1 rfl).2,
    rfl, by decide, by decide, by decide,
    ((pause_freeze_and_advance 15 ps8 150 []).2 rfl (by decide) (by decide)).1 (by decide)⟩

/-- C10 — the pre-decode tick assumes a non-empty frame list: with zero
extracted frames the unpaused advance takes `(current_frame + 1) % 0` and the
render step indexes an empty vector, so the tick step faults (`none`) rather
than returning an error or ending playback; with `total_frames ≥ 1` and
`current_frame` in range, the same expressions are total and keep
`current_frame` inside `[0, total_frames)`. -/
theorem tick_requires_nonempty :
    (∀ (s : PlaybackState) (now : Nat), tickRender [] s now = none) ∧
    (∀ (s : PlaybackState), s.paused = false →
      rustMod (s.current_frame + 1) ([] : List String).length = none) ∧
    (∀ (frames : List String) (s : PlaybackState) (now : Nat),
      0 < frames.length → s.current_frame < frames.length →
      (tickRender frames s now).isSome = true ∧
      (∀ s' content, tickRender frames s now = some (s', content) →
        s'.current_frame < frames.length)) := by
  refine ⟨?_, ?_, ?_⟩
  · intro s now
    rw [tickRender]
    split
    · rfl
    · rfl
  · intro s _
    rfl
  · intro frames s now htot hcf
    rw [tickRender]
    split
    · next hadv =>
        have hmod : rustMod (s.current_frame + 1) frames.length
            = some ((s.current_frame + 1) % frames.length) := by
          rw [rustMod, if_neg (by omega)]
        rw [hmod]
        have hlt : (s.current_frame + 1) % frames.length < frames.length :=
          Nat.mod_lt _ htot
        have hget : vecGet frames ((s.current_frame + 1) % frames.length)
            = some (frames[(s.current_frame + 1) % frames.length]) := by
          rw [vecGet, List.getElem?_eq_getElem hlt]
        constructor
        · rw [Option.map_some', Option.some_bind, hget]
          rfl
        · intro s' content heq
          rw [Option.map_some', Option.some_bind, hget, Option.map_some'] at heq
          have hs' : s' = { s with
              last_frame_time := now
              current_frame := (s.current_frame + 1) % frames.length } := by
            cases heq
            rfl
          rw [hs']
          exact hlt
    · next hnoadv =>
        have hget : vecGet frames s.current_frame = some (frames[s.current_frame]) := by
          rw [vecGet, List.getElem?_eq_getElem hcf]
        constructor
        · rw [Option.some_bind, hget]
          rfl
        · intro s' content heq
          rw [Option.some_bind, hget, Option.map_some'] at heq
          have hs' : s' = s := by cases heq; rfl
          rw [hs']
          exact hcf

/-- C10 witness: on a two-frame list with `current_frame = 8`… (uses a state
whose cursor is in range: frame 1 of 2). -/
theorem tick_requires_nonempty_witness :
    tickRender [] ps8 150 = none ∧
    (0 < (["a", "b"] : List String).length ∧
      { ps8 with current_frame := 1 }.current_frame < (["a", "b"] : List String).length ∧
      (tickRender ["a", "b"] { ps8 with current_frame := 1 } 150).isSome = true) :=
  ⟨tick_requires_nonempty.1 ps8 150,
    by decide, by decide,
    (tick_requires_nonempty.2.2 ["a", "b"] { ps8 with current_frame := 1 } 150
      (by decide) (by decide)).1⟩

/-- C6 witness: on the default converter, luminance 10 maps no higher than
luminance 200, and 200's index stays below the ramp length. -/
theorem charIdxOf_monotone_bounded_witness :
    cDefault.contrast = 1 ∧ cDefault.brightness = 0 ∧
    cDefault.charIdxOf 10 ≤ cDefault.charIdxOf 200 ∧
    cDefault.charIdxOf 200 ≤ cDefault.char_set.get_chars.length - 1 :=
  ⟨rfl, rfl,
    (charIdxOf_monotone_bounded cDefault rfl rfl).1 10 200 (by decide) (by decide),
    (charIdxOf_monotone_bounded cDefault rfl rfl).2 200 (by decide)⟩

/-- C3 witness: the 1×1 all-black frame converts to the darkest glyph of the
simple ramp; the inverted extractor agrees with the non-inverted one at the
mirrored luminance and maps black to the brightest playback glyph. -/
theorem convert_black_white_invert_witness :
    cDefault.brightness = 0 ∧ cDefault.contrast = 1 ∧
    blackFrame1.width = cDefault.width ∧ blackFrame1.height = cDefault.height ∧
    blackFrame1.data = List.replicate (blackFrame1.width * blackFrame1.height * 3) 0 ∧
    (cDefault.convert blackFrame1).data.head?.map AsciiChar.character = some ' ' ∧
    eInv.glyphForLuminance ((100 : Nat) : Rat)
      = eNoInv.glyphForLuminance ((255 - 100 : Nat) : Rat) ∧
    eInv.pixel_to_ascii 0 0 0 = '@' := by
  refine ⟨rfl, rfl, rfl, rfl, by decide, ?_, ?_, ?_⟩
  · have hblack :=
      (convert_black_white_invert.1 cDefault blackFrame1 rfl rfl rfl rfl).1 (by decide)
    have hlen := convert_data_length cDefault blackFrame1
    cases hdata : (cDefault.convert blackFrame1).data with
    | nil =>
        rw [hdata] at hlen
        exact absurd hlen (by decide)
    | cons a t =>
        have hmem : a ∈ (cDefault.convert blackFrame1).data := by
          rw [hdata]
          exact List.mem_cons_self a t
        have hchar := hblack a hmem
        show some a.character = some ' '
        rw [hchar]
        rfl
  · exact (convert_black_white_invert.2 eInv eNoInv rfl rfl).1 100 (by decide)
  · have h := (convert_black_white_invert.2 eInv eNoInv rfl rfl).2.1
    rw [h]
    rfl

end AsciiEngine
